import Mathlib

/-!
Verification of the guidance grammar-constrained parser and generation-state
model, shallowly embedded from `src/guidance/_parser.py` and
`src/guidance/models/_base/_model.py`.

Bytes are modelled as `List Nat` (Python `bytes` objects), token ids as `Nat`,
Python `float` log-probabilities as `Rat` (exact arithmetic stands in for IEEE
floats; the claims under study are about the structure of the computation, not
float rounding), Python `str` as `String`, and Python dicts as ordered
association lists with Python's insert-or-overwrite-in-place semantics.
Fallible code (Python `assert`, exhausted interpreter) is modelled with
`Option`; raised `ParserException`s are an explicit result constructor.
-/

namespace Guidance

/-! ### Python dict operations (insertion-ordered association lists) -/

/-- Lookup in a Python dict modelled as an ordered association list. -/
def dictGet {α : Type} (m : List (String × α)) (k : String) : Option α :=
  match m with
  | [] => none
  | (k2, v) :: rest => if k2 = k then some v else dictGet rest k

/-- Python `d[k] = v`: overwrite in place if the key exists, else append. -/
def dictPut {α : Type} (m : List (String × α)) (k : String) (v : α) :
    List (String × α) :=
  match m with
  | [] => [(k, v)]
  | (k2, v2) :: rest =>
      if k2 = k then (k, v) :: rest else (k2, v2) :: dictPut rest k v

/-- Python `d.pop(k)`: remove the binding for `k` if present. -/
def dictDrop {α : Type} (m : List (String × α)) (k : String) :
    List (String × α) :=
  match m with
  | [] => []
  | (k2, v2) :: rest =>
      if k2 = k then rest else (k2, v2) :: dictDrop rest k

theorem dictGet_dictPut_self {α : Type} (m : List (String × α)) (k : String)
    (v : α) : dictGet (dictPut m k v) k = some v := by
  induction m with
  | nil => simp [dictGet, dictPut]
  | cons hd tl ih =>
      obtain ⟨k2, v2⟩ := hd
      by_cases h : k2 = k
      · simp [dictGet, dictPut, h]
      · simp [dictGet, dictPut, h, ih]

/-! ### Data model from `src/guidance/_parser.py` -/

/-- `ParserState` (dataclass, `_parser.py` lines 19-24). -/
structure ParserState where
  tokens : List Nat
  ff_tokens : List Nat
  backtrack : Nat
  done : Bool
deriving DecidableEq

/-- `GenData` (dataclass, `_parser.py` lines 35-42); the mask is one entry per
vocabulary id, nonzero meaning legal. -/
structure GenData where
  tokens : List Nat
  mask : List Nat
  temperature : Rat
deriving DecidableEq

/-- `GenData.valid_next_tokens`: `np.where(self.mask)[0].tolist()`, the ids
whose mask entry is nonzero. -/
def validNextTokens (mask : List Nat) : List Nat :=
  (List.range mask.length).filter (fun i => mask.getD i 0 ≠ 0)

/-- One entry of the interpreter's structured `progress` report
(protocol events `capture` and `text`; any other tag is ignored). -/
inductive ProgressItem where
  | capture (name : String) (data : List Nat) (log_prob : Rat)
  | text (data : List Nat) (num_tokens : Nat) (log_prob : Rat)
      (is_generated : Bool)
  | other
deriving DecidableEq

/-- A capture value: raw bytes, or an ordered list of byte values for
list-append captures. -/
inductive CaptureValue where
  | scalar (data : List Nat)
  | list (vals : List (List Nat))
deriving DecidableEq

/-- A capture log-probability, parallel in shape to `CaptureValue`. -/
inductive LogProbValue where
  | scalar (lp : Rat)
  | list (lps : List Rat)
deriving DecidableEq

/-- `ParserResponse` (dataclass, `_parser.py` lines 26-33). -/
structure ParserResponse where
  new_bytes : List Nat
  new_token_count : Nat
  new_bytes_prob : Rat
  is_generated : Bool
  capture_groups : List (String × CaptureValue)
  capture_group_log_probs : List (String × LogProbValue)
deriving DecidableEq

/-- The step report the interpreter's `mid_process` returns: the optional
token mask together with the parsed JSON response fields used by
`LLParser._advance`. -/
structure StepReport where
  mask : Option (List Nat)
  backtrack : Nat
  ff_tokens : List Nat
  stop : Bool
  temperature : Rat
  progress : List ProgressItem
deriving DecidableEq

/-- Python `str.startswith` on code-point lists. -/
def listStartsWith : List Char → List Char → Bool
  | _, [] => true
  | [], _ :: _ => false
  | c :: cs, d :: ds => c = d && listStartsWith cs ds

/-- Python `str.startswith`: a `String` models a Python `str` as its sequence
of code points. -/
def strStartsWith (s p : String) : Bool := listStartsWith s.data p.data

/-- Python slicing `s[n:]` by code points. -/
def strDrop (s : String) (n : Nat) : String := String.mk (s.data.drop n)

/-- The `__LIST_APPEND:` marker prefixed to list-mode capture names
(14 characters, stripped by `cname[14:]`). -/
def listAppendTag : String := "__LIST_APPEND:"

/-- Whether a stored capture value currently has list shape. -/
def isListShaped : Option CaptureValue → Bool
  | some (CaptureValue.list _) => true
  | _ => false

/-- The capture branch of `LLParser._handle_progress` (lines 158-172): one
capture event applied to the two capture dicts.  A `__LIST_APPEND:`-tagged
name appends to the stored list, resetting both dicts to empty lists first
when the stored value is missing or not a list; an untagged name overwrites
both entries with scalars.  Python keeps the two dicts in shape lock-step, so
the log-prob dict is a list exactly when the value dict is. -/
def applyCaptureEvent (cg : List (String × CaptureValue))
    (cglp : List (String × LogProbValue)) (name : String) (data : List Nat)
    (lp : Rat) :
    List (String × CaptureValue) × List (String × LogProbValue) :=
  if strStartsWith name listAppendTag then
    let cname := strDrop name 14
    match dictGet cg cname with
    | some (CaptureValue.list vs) =>
        let ls := match dictGet cglp cname with
          | some (LogProbValue.list ls) => ls
          | _ => []
        (dictPut cg cname (CaptureValue.list (vs ++ [data])),
         dictPut cglp cname (LogProbValue.list (ls ++ [lp])))
    | _ =>
        (dictPut cg cname (CaptureValue.list [data]),
         dictPut cglp cname (LogProbValue.list [lp]))
  else
    (dictPut cg name (CaptureValue.scalar data),
     dictPut cglp name (LogProbValue.scalar lp))

/-- Accumulator record for the `for j in progress` loop of
`LLParser._handle_progress`. -/
structure ProgressAcc where
  new_bytes : List Nat
  new_token_count : Nat
  prob_sum : Rat
  is_generated : Bool
  capture_groups : List (String × CaptureValue)
  capture_group_log_probs : List (String × LogProbValue)
  num_text_entries : Nat
deriving DecidableEq

/-- The loop body of `LLParser._handle_progress` over the progress list. -/
def handleProgressLoop (acc : ProgressAcc) :
    List ProgressItem → ProgressAcc
  | [] => acc
  | item :: rest =>
      match item with
      | ProgressItem.capture name data lp =>
          let p := applyCaptureEvent acc.capture_groups
            acc.capture_group_log_probs name data lp
          handleProgressLoop
            { acc with
                is_generated := true
                capture_groups := p.1
                capture_group_log_probs := p.2 } rest
      | ProgressItem.text data ntok lp gen =>
          handleProgressLoop
            { acc with
                new_bytes := acc.new_bytes ++ data
                new_token_count := acc.new_token_count + ntok
                prob_sum := acc.prob_sum + lp
                is_generated := acc.is_generated || gen
                num_text_entries := acc.num_text_entries + 1 } rest
      | ProgressItem.other => handleProgressLoop acc rest

/-- `LLParser._handle_progress` (`_parser.py` lines 146-190): reduce the
progress report to a `ParserResponse`, dividing the accumulated
log-probability by the number of text entries when there was at least one. -/
def handleProgress (progress : List ProgressItem) : ParserResponse :=
  let acc := handleProgressLoop
    ⟨[], 0, 0, false, [], [], 0⟩ progress
  { new_bytes := acc.new_bytes
    new_token_count := acc.new_token_count
    new_bytes_prob :=
      if 0 < acc.num_text_entries then
        acc.prob_sum / (acc.num_text_entries : Rat)
      else acc.prob_sum
    is_generated := acc.is_generated
    capture_groups := acc.capture_groups
    capture_group_log_probs := acc.capture_group_log_probs }

/-- `LLParser._advance` (`_parser.py` lines 102-133) applied to one
interpreter step report.  `none` models a failed Python `assert`.  When a
mask is present the interpreter must report `stop=false`, `backtrack=0` and
`ff_tokens=[]`; otherwise the token sequence is trimmed by `backtrack`
(`tokens[:-backtrack]`, only when nonzero) and extended with `ff_tokens`. -/
def advanceStep (state : ParserState) (r : StepReport) :
    Option (Option GenData × ParserResponse × ParserState) :=
  match r.mask with
  | some m =>
      if r.stop then none
      else if r.backtrack ≠ 0 then none
      else if r.ff_tokens ≠ [] then none
      else
        let gen_data := some (GenData.mk state.tokens m r.temperature)
        some (gen_data, handleProgress r.progress,
          ParserState.mk state.tokens r.ff_tokens r.backtrack r.stop)
  | none =>
      let tokens :=
        if r.backtrack ≠ 0 then
          state.tokens.take (state.tokens.length - r.backtrack)
        else state.tokens
      some (none, handleProgress r.progress,
        ParserState.mk (tokens ++ r.ff_tokens) r.ff_tokens r.backtrack r.stop)

/-- `LLParser._consume_token` (`_parser.py` lines 135-144); `none` models a
failed Python `assert`. -/
def consumeToken (tok_id : Nat) (state : ParserState) : Option ParserState :=
  if state.done then none
  else if state.backtrack ≠ 0 then none
  else if state.ff_tokens ≠ [] then none
  else some (ParserState.mk (state.tokens ++ [tok_id]) [tok_id] 0 false)

/-- The projection of a progress report to its text fragments, in report
order: payload bytes, token count, log-probability. -/
def textFragment : ProgressItem → Option (List Nat × Nat × Rat)
  | ProgressItem.text data ntok lp _ => some (data, ntok, lp)
  | _ => none

theorem handleProgressLoop_text_fields (l : List ProgressItem)
    (acc : ProgressAcc) :
    (handleProgressLoop acc l).new_bytes =
      acc.new_bytes ++ ((l.filterMap textFragment).map fun t => t.1).flatten ∧
    (handleProgressLoop acc l).new_token_count =
      acc.new_token_count + ((l.filterMap textFragment).map fun t => t.2.1).sum ∧
    (handleProgressLoop acc l).prob_sum =
      acc.prob_sum + ((l.filterMap textFragment).map fun t => t.2.2).sum ∧
    (handleProgressLoop acc l).num_text_entries =
      acc.num_text_entries + (l.filterMap textFragment).length := by
  induction l generalizing acc with
  | nil => simp [handleProgressLoop]
  | cons item rest ih =>
      cases item with
      | capture name data lp =>
          simpa [handleProgressLoop, textFragment] using ih _
      | text data ntok lp gen =>
          obtain ⟨h1, h2, h3, h4⟩ := ih
            { acc with
                new_bytes := acc.new_bytes ++ data
                new_token_count := acc.new_token_count + ntok
                prob_sum := acc.prob_sum + lp
                is_generated := acc.is_generated || gen
                num_text_entries := acc.num_text_entries + 1 }
          refine ⟨?_, ?_, ?_, ?_⟩ <;>
            simp [handleProgressLoop, textFragment, h1, h2, h3, h4] <;> ring
      | other => simpa [handleProgressLoop, textFragment] using ih _

/-- C3: when the interpreter returns no mask, the new token sequence is the
prior one with the reported number of trailing tokens trimmed and the
reported fast-forward tokens appended, and the `GenData` component of the
advance result is absent. -/
theorem advance_no_mask_trims_and_appends (state : ParserState)
    (r : StepReport) (hmask : r.mask = none)
    (hbt : r.backtrack ≤ state.tokens.length) :
    advanceStep state r = some (none, handleProgress r.progress,
      ParserState.mk
        (state.tokens.take (state.tokens.length - r.backtrack) ++ r.ff_tokens)
        r.ff_tokens r.backtrack r.stop)
    ∧ state.tokens.take (state.tokens.length - r.backtrack) ++
        state.tokens.drop (state.tokens.length - r.backtrack) = state.tokens
    ∧ (state.tokens.drop (state.tokens.length - r.backtrack)).length
        = r.backtrack := by
  refine ⟨?_, List.take_append_drop _ _, ?_⟩
  · by_cases h : r.backtrack = 0 <;>
      simp [advanceStep, hmask, h, List.take_length]
  · simp only [List.length_drop]
    omega

/-- Witness for C3 at a concrete state and report. -/
theorem advance_no_mask_trims_and_appends_witness :
    advanceStep (ParserState.mk [1, 2, 3] [] 0 false)
      (StepReport.mk none 2 [9] false 0 []) =
      some (none, handleProgress [], ParserState.mk [1, 9] [9] 2 false) := by
  have h := advance_no_mask_trims_and_appends
    (ParserState.mk [1, 2, 3] [] 0 false)
    (StepReport.mk none 2 [9] false 0 []) rfl (by decide)
  simpa using h.1

/-- C4: an advance step in which the interpreter returns a mask is a fatal
assertion-class failure (modelled `none`) exactly when the step report does
not also carry `backtrack = 0`, empty `ff_tokens` and `stop = false`; a
maskless step never trips these assertions. -/
theorem advance_mask_protocol_check (state : ParserState) (r : StepReport) :
    advanceStep state r = none ↔
      r.mask ≠ none ∧
        ¬(r.backtrack = 0 ∧ r.ff_tokens = [] ∧ r.stop = false) := by
  cases hm : r.mask with
  | none => simp [advanceStep, hm]
  | some m =>
      by_cases hs : r.stop <;> by_cases hb : r.backtrack = 0 <;>
        by_cases hf : r.ff_tokens = [] <;>
          simp [advanceStep, hm, hs, hb, hf]

/-- C5: `consume_token` fails its assertions exactly when the parser is done,
mid-backtrack, or mid-fast-forward; under the legal precondition it returns
the state with the token appended to `tokens` and `ff_tokens` the singleton
of that token. -/
theorem consume_token_contract (tok_id : Nat) (state : ParserState) :
    (consumeToken tok_id state = none ↔
      ¬(state.done = false ∧ state.backtrack = 0 ∧ state.ff_tokens = []))
    ∧ (state.done = false → state.backtrack = 0 → state.ff_tokens = [] →
        consumeToken tok_id state =
          some (ParserState.mk (state.tokens ++ [tok_id]) [tok_id] 0 false)) := by
  constructor
  · by_cases hd : state.done <;> by_cases hb : state.backtrack = 0 <;>
      by_cases hf : state.ff_tokens = [] <;>
        simp [consumeToken, hd, hb, hf]
  · intro hd hb hf
    simp [consumeToken, hd, hb, hf]

/-- Witness for C5 at a concrete token and state. -/
theorem consume_token_contract_witness :
    consumeToken 5 (ParserState.mk [1, 2] [] 0 false) =
      some (ParserState.mk [1, 2, 5] [5] 0 false) :=
  (consume_token_contract 5 (ParserState.mk [1, 2] [] 0 false)).2 rfl rfl rfl

/-- C1 counterexample: the capture name `x` is first written by a
list-append event (yielding the one-element list `[[1]]`), yet the very next
scalar event for the same name overwrites the whole list with the scalar
`[2]`; the first write does not determine the shape for the remainder of the
parse. -/
theorem capture_first_write_cex :
    dictGet (handleProgress
        [ProgressItem.capture "__LIST_APPEND:x" [1] 0]).capture_groups "x" =
      some (CaptureValue.list [[1]]) ∧
    dictGet (handleProgress
        [ProgressItem.capture "__LIST_APPEND:x" [1] 0,
         ProgressItem.capture "x" [2] 0]).capture_groups "x" =
      some (CaptureValue.scalar [2]) := by
  constructor <;> decide

/-- C1 amended: it is the mode of each individual capture event, not the
first write, that decides how a name is stored.  A list-append event appends
to the stored list when the current value is list-shaped and otherwise
replaces the stored value with a fresh one-element list; a scalar event
overwrites the stored value with a scalar unconditionally, even when a list
is stored. -/
theorem capture_event_mode_spec (cg : List (String × CaptureValue))
    (cglp : List (String × LogProbValue)) (name : String) (data : List Nat)
    (lp : Rat) :
    (strStartsWith name listAppendTag = true →
      isListShaped (dictGet cg (strDrop name 14)) = false →
      (applyCaptureEvent cg cglp name data lp).1 =
        dictPut cg (strDrop name 14) (CaptureValue.list [data]))
    ∧ (strStartsWith name listAppendTag = true →
        ∀ vs, dictGet cg (strDrop name 14) = some (CaptureValue.list vs) →
          (applyCaptureEvent cg cglp name data lp).1 =
            dictPut cg (strDrop name 14) (CaptureValue.list (vs ++ [data])))
    ∧ (strStartsWith name listAppendTag = false →
        (applyCaptureEvent cg cglp name data lp).1 =
          dictPut cg name (CaptureValue.scalar data)) := by
  refine ⟨?_, ?_, ?_⟩
  · intro h hshape
    cases hv : dictGet cg (strDrop name 14) with
    | none => simp [applyCaptureEvent, h, hv]
    | some v =>
        cases v with
        | scalar d => simp [applyCaptureEvent, h, hv]
        | list vs => simp [isListShaped, hv] at hshape
  · intro h vs hv
    simp [applyCaptureEvent, h, hv]
  · intro h
    simp [applyCaptureEvent, h]

/-- Witness for the amended C1 at a concrete event. -/
theorem capture_event_mode_spec_witness :
    (applyCaptureEvent [] [] "__LIST_APPEND:x" [7] 0).1 =
      dictPut [] (strDrop "__LIST_APPEND:x" 14) (CaptureValue.list [[7]]) :=
  (capture_event_mode_spec [] [] "__LIST_APPEND:x" [7] 0).1
    (by decide) (by decide)

/-- C9: the progress reducer tolerates any number of text fragments in one
step: `new_bytes` is the concatenation of all text fragments' bytes in report
order, `new_token_count` is the sum of their token counts, and
`new_bytes_prob` is the arithmetic mean of their log-probabilities (zero when
no text fragment appears). -/
theorem progress_reducer_tolerates_many_texts (progress : List ProgressItem) :
    (handleProgress progress).new_bytes =
      ((progress.filterMap textFragment).map fun t => t.1).flatten ∧
    (handleProgress progress).new_token_count =
      ((progress.filterMap textFragment).map fun t => t.2.1).sum ∧
    (handleProgress progress).new_bytes_prob =
      (if (progress.filterMap textFragment).length = 0 then 0
       else ((progress.filterMap textFragment).map fun t => t.2.2).sum /
         ((progress.filterMap textFragment).length : Rat)) := by
  obtain ⟨h1, h2, h3, h4⟩ :=
    handleProgressLoop_text_fields progress ⟨[], 0, 0, false, [], [], 0⟩
  refine ⟨?_, ?_, ?_⟩
  · simpa [handleProgress] using h1
  · simpa [handleProgress] using h2
  · rcases Nat.eq_zero_or_pos (progress.filterMap textFragment).length with
      h0 | hpos
    · have hnil : progress.filterMap textFragment = [] :=
        List.length_eq_zero.mp h0
      simp [handleProgress, h3, h4, hnil]
    · have hne : (progress.filterMap textFragment).length ≠ 0 :=
        Nat.pos_iff_ne_zero.mp hpos
      simp [handleProgress, h3, h4, hpos, hne]

/-! ### Byte parser from `src/guidance/_parser.py` (`ByteParser`) -/

/-- The `LLParser` driver: the queue of step reports the external interpreter
will return to successive `mid_process` calls (the interpreter is an external
collaborator, so its replies are a parameter of the model) together with the
current `ParserState`. -/
structure LLParserSt where
  reports : List StepReport
  state : ParserState
deriving DecidableEq

/-- `LLParser.advance` (lines 78-80): run `_advance` against the next
interpreter reply and commit the new state; `none` when an assertion fails or
no reply remains. -/
def llAdvance (p : LLParserSt) :
    Option (Option GenData × ParserResponse × LLParserSt) :=
  match p.reports with
  | [] => none
  | r :: rest =>
      match advanceStep p.state r with
      | none => none
      | some (gd, resp, st) => some (gd, resp, LLParserSt.mk rest st)

/-- A value stored in `ByteParser._variables`: capture bytes decoded to text
when possible, otherwise kept as raw bytes. -/
inductive VarScalar where
  | str (s : String)
  | bytes (bs : List Nat)
deriving DecidableEq

/-- A `_variables` entry: scalar, or ordered list for list-append names. -/
inductive VarValue where
  | scalar (v : VarScalar)
  | list (vs : List VarScalar)
deriving DecidableEq

/-- Python `v.decode("utf8")` with `UnicodeDecodeError` swallowed; the UTF-8
codec is external to the parser, so it enters the model as a parameter that
returns `none` exactly on the byte sequences that fail to decode. -/
def tryDecode (dec : List Nat → Option String) (bs : List Nat) : VarScalar :=
  match dec bs with
  | some s => VarScalar.str s
  | none => VarScalar.bytes bs

/-- `ByteParser._update_capture` (lines 256-292) for one capture name: a
list value appends element-wise (resetting a missing or non-list entry to a
fresh list first), a scalar value overwrites both dicts. -/
def updateCaptureOne (dec : List Nat → Option String)
    (acc : List (String × VarValue) × List (String × LogProbValue))
    (k : String) (v : CaptureValue) (lp : LogProbValue) :
    List (String × VarValue) × List (String × LogProbValue) :=
  match v with
  | CaptureValue.list vs =>
      let lps := match lp with
        | LogProbValue.list ls => ls
        | _ => []
      vs.enum.foldl (fun acc iv =>
        let inner := tryDecode dec iv.2
        match dictGet acc.1 k with
        | some (VarValue.list cur) =>
            let curL := match dictGet acc.2 k with
              | some (LogProbValue.list ls) => ls
              | _ => []
            (dictPut acc.1 k (VarValue.list (cur ++ [inner])),
             dictPut acc.2 k (LogProbValue.list (curL ++ [lps.getD iv.1 0])))
        | _ =>
            (dictPut acc.1 k (VarValue.list [inner]),
             dictPut acc.2 k (LogProbValue.list [lps.getD iv.1 0]))) acc
  | CaptureValue.scalar bs =>
      (dictPut acc.1 k (VarValue.scalar (tryDecode dec bs)),
       dictPut acc.2 k lp)

/-- `ByteParser._update_capture`: fold the response's capture groups, in dict
order, into `_variables` and `_variables_log_probs`. -/
def updateCapture (dec : List Nat → Option String)
    (vars : List (String × VarValue))
    (varLps : List (String × LogProbValue)) (resp : ParserResponse) :
    List (String × VarValue) × List (String × LogProbValue) :=
  resp.capture_groups.foldl (fun acc kv =>
    let lp := match dictGet resp.capture_group_log_probs kv.1 with
      | some lp => lp
      | none => LogProbValue.scalar 0
    updateCaptureOne dec acc kv.1 kv.2 lp) (vars, varLps)

/-- `ByteParser` object state (lines 193-206): the wrapped `LLParser`, the
committed byte buffer, the cached pending mask, the read cursor, and the two
capture dicts. -/
structure ByteParserSt where
  ll : LLParserSt
  bytes : List Nat
  gen_data : Option GenData
  pos : Nat
  vars : List (String × VarValue)
  vars_log_probs : List (String × LogProbValue)
deriving DecidableEq

/-- The loop `while self.gen_data is None and not self.ll_parser.done`
(lines 217-220), fuelled by the number of pending interpreter reports.  The
fuel-zero case coincides with the unbounded loop: with no reports left
`advance` can only fail, which `none` reports. -/
def flushLoopF (dec : List Nat → Option String) :
    Nat → ByteParserSt → Option ByteParserSt
  | 0, s =>
      if s.gen_data = none ∧ s.ll.state.done = false then none else some s
  | fuel + 1, s =>
      if s.gen_data = none ∧ s.ll.state.done = false then
        match llAdvance s.ll with
        | none => none
        | some (gd, resp, ll2) =>
            let p := updateCapture dec s.vars s.vars_log_probs resp
            flushLoopF dec fuel
              (ByteParserSt.mk ll2 (s.bytes ++ resp.new_bytes) gd s.pos
                p.1 p.2)
      else some s

/-- The flush loop entered with exactly as much fuel as there are pending
interpreter reports — each iteration consumes one, so this is the exact
unbounded `while` loop. -/
def flushLoop (dec : List Nat → Option String) (s : ByteParserSt) :
    Option ByteParserSt :=
  flushLoopF dec s.ll.reports.length s

/-- An element of `ParserException.allowed_bytes`: the committed-buffer
mismatch site stores raw Python ints, the frontier site single-byte Python
`bytes` objects. -/
inductive AllowedElem where
  | intVal (n : Nat)
  | bytesVal (bs : List Nat)
deriving DecidableEq

/-- `ParserException` (lines 12-17) restricted to the keyword payload that
`consume_bytes` fills in: the offending byte, the allowed bytes, and the
bytes consumed so far. -/
structure ParserException where
  current_byte : Nat
  allowed_bytes : List AllowedElem
  consumed_bytes : List Nat
deriving DecidableEq

/-- Result of examining one input byte inside `consume_bytes`. -/
inductive StepOutcome where
  | err (e : ParserException)
  | matchedByte (s : ByteParserSt)
  | fedToken (s : ByteParserSt)
  | assertFail
deriving DecidableEq

/-- Lines 225-251 of `_parser.py`: examine the next input byte `b` once the
flush loop has run.  Within the committed buffer the byte must equal
`bytes[pos]`, else a `ParserException` whose allowed bytes are the raw int
`bytes[pos]`; at the frontier it must be one of the pending mask's legal
token ids, else a `ParserException` whose allowed bytes are those ids as
single-byte values, and on success it is fed to `consume_token` and the
cached mask is discarded. -/
def consumeBytesStep (s : ByteParserSt) (b : Nat) : StepOutcome :=
  if s.pos < s.bytes.length then
    if b ≠ s.bytes.getD s.pos 0 then
      StepOutcome.err
        (ParserException.mk b [AllowedElem.intVal (s.bytes.getD s.pos 0)]
          s.bytes)
    else
      StepOutcome.matchedByte { s with pos := s.pos + 1 }
  else
    match s.gen_data with
    | none => StepOutcome.assertFail
    | some gd =>
        let valid := validNextTokens gd.mask
        if b ∉ valid then
          StepOutcome.err
            (ParserException.mk b
              (valid.map fun t => AllowedElem.bytesVal [t]) s.bytes)
        else
          match consumeToken b s.ll.state with
          | none => StepOutcome.assertFail
          | some st =>
              StepOutcome.fedToken
                { s with ll := LLParserSt.mk s.ll.reports st,
                         gen_data := none }

/-- Overall result of `consume_bytes`: normal return, a raised
`ParserException`, or a fatal assertion-failure/exhausted-interpreter stop. -/
inductive ConsumeResult where
  | ok (s : ByteParserSt)
  | exn (e : ParserException)
  | fail
deriving DecidableEq

/-- `ByteParser.consume_bytes` (lines 216-251), fuelled: flush the token
parser, return on empty input, then examine the next byte; a buffer match
recurses on the remaining input, a fed frontier token recurses on the same
input. -/
def consumeBytesF (dec : List Nat → Option String) :
    Nat → ByteParserSt → List Nat → ConsumeResult
  | 0, _, _ => ConsumeResult.fail
  | fuel + 1, s, bts =>
      match flushLoop dec s with
      | none => ConsumeResult.fail
      | some s1 =>
          match bts with
          | [] => ConsumeResult.ok s1
          | b :: rest =>
              match consumeBytesStep s1 b with
              | StepOutcome.err e => ConsumeResult.exn e
              | StepOutcome.assertFail => ConsumeResult.fail
              | StepOutcome.matchedByte s2 => consumeBytesF dec fuel s2 rest
              | StepOutcome.fedToken s2 => consumeBytesF dec fuel s2 bts

/-- `ByteParser.consume_bytes` with enough fuel for its recursion: every
recursive call either consumes an input byte or is preceded by a flush that
consumes an interpreter report, so this fuel can never run out. -/
def consumeBytes (dec : List Nat → Option String) (s : ByteParserSt)
    (bts : List Nat) : ConsumeResult :=
  consumeBytesF dec (2 * s.ll.reports.length + bts.length + 2) s bts

/-- `ByteParser.matched` (lines 208-214): false while the cursor is inside
the buffer; otherwise, after one empty `consume_bytes` flush if the parser is
not yet done, the token parser's `done` flag; `none` models a fatal failure
inside the flush. -/
def matched (dec : List Nat → Option String) (s : ByteParserSt) :
    Option (Bool × ByteParserSt) :=
  if s.pos < s.bytes.length then some (false, s)
  else if s.ll.state.done = false then
    match consumeBytes dec s [] with
    | ConsumeResult.ok s1 => some (s1.ll.state.done, s1)
    | _ => none
  else some (true, s)

theorem consumeBytesF_nil (dec : List Nat → Option String) (fuel : Nat)
    (s : ByteParserSt) :
    consumeBytesF dec (fuel + 1) s [] =
      match flushLoop dec s with
      | none => ConsumeResult.fail
      | some s1 => ConsumeResult.ok s1 := by
  cases h : flushLoop dec s <;> simp [consumeBytesF, h]

/-- A UTF-8 decoder for the concrete runs below; the runs carry no captures,
so its choice is immaterial. -/
def decNone : List Nat → Option String := fun _ => none

/-- A final interpreter reply that both stops and commits one trailing
grammar-forced byte `0x7a`. -/
def stopWithByteReport : StepReport :=
  StepReport.mk none 0 [] true 0 [ProgressItem.text [122] 1 0 true]

/-- A byte parser whose cursor has caught up to the (empty) buffer and whose
next interpreter reply is `stopWithByteReport`. -/
def caughtUpSt : ByteParserSt :=
  ByteParserSt.mk (LLParserSt.mk [stopWithByteReport]
    (ParserState.mk [] [] 0 false)) [] none 0 [] []

/-- C2 counterexample: the final empty flush inside `matched()` commits a
trailing grammar-forced byte while reaching the interpreter's stop, so
`matched()` answers true although the cursor `pos = 0` is strictly below the
grown buffer length 1: true is not returned only when `pos` equals the
buffer length. -/
theorem matched_true_inside_buffer_cex :
    matched decNone caughtUpSt =
      some (true, ByteParserSt.mk (LLParserSt.mk []
        (ParserState.mk [] [] 0 true)) [122] none 0 [] []) ∧
    (ByteParserSt.mk (LLParserSt.mk [] (ParserState.mk [] [] 0 true))
      [122] none 0 [] []).pos <
      (ByteParserSt.mk (LLParserSt.mk [] (ParserState.mk [] [] 0 true))
        [122] none 0 [] []).bytes.length := by
  constructor <;> decide

/-- C2 amended: `matched()` answers false immediately when the cursor is
strictly inside the buffer; when the cursor has caught up and the parser is
not yet done it performs exactly one empty `consume_bytes` flush and then
returns the parser's `done` flag (the flush may commit further bytes, so a
true answer guarantees `pos` reached the buffer length as of entry, not the
final one); when the parser is already done it answers true with no flush. -/
theorem matched_spec (dec : List Nat → Option String) (s : ByteParserSt) :
    (s.pos < s.bytes.length → matched dec s = some (false, s))
    ∧ (¬ s.pos < s.bytes.length → s.ll.state.done = false →
        matched dec s =
          (flushLoop dec s).map fun s1 => (s1.ll.state.done, s1))
    ∧ (¬ s.pos < s.bytes.length → s.ll.state.done = true →
        matched dec s = some (true, s)) := by
  refine ⟨?_, ?_, ?_⟩
  · intro h
    simp [matched, h]
  · intro h hdone
    have hfuel : 2 * s.ll.reports.length + ([] : List Nat).length + 2 =
        (2 * s.ll.reports.length + 1) + 1 := rfl
    rw [matched, consumeBytes, hfuel, consumeBytesF_nil]
    cases hf : flushLoop dec s <;> simp [h, hdone, hf]
  · intro h hdone
    simp [matched, h, hdone]

/-- Witness for the amended C2: a parser that is already done with the cursor
caught up answers true. -/
theorem matched_spec_witness :
    matched decNone (ByteParserSt.mk (LLParserSt.mk []
      (ParserState.mk [] [] 0 true)) [] none 0 [] []) =
      some (true, ByteParserSt.mk (LLParserSt.mk []
        (ParserState.mk [] [] 0 true)) [] none 0 [] []) :=
  (matched_spec decNone _).2.2 (by decide) rfl

/-- C6: examining the next input byte raises a `ParserException` exactly when
the byte differs from the committed buffer byte at the cursor or, at the
frontier with a pending mask, is not a legal next token id; the exception
carries the offending byte, the expected committed byte (a raw int) or the
legal next bytes (single-byte values) from the pending mask, and the bytes
consumed so far. -/
theorem consume_bytes_mismatch_spec (s : ByteParserSt) (b : Nat) :
    ((∃ e, consumeBytesStep s b = StepOutcome.err e) ↔
      ((s.pos < s.bytes.length ∧ b ≠ s.bytes.getD s.pos 0) ∨
       (s.bytes.length ≤ s.pos ∧ ∃ gd, s.gen_data = some gd ∧
          b ∉ validNextTokens gd.mask)))
    ∧ (∀ e, consumeBytesStep s b = StepOutcome.err e →
        e.current_byte = b ∧ e.consumed_bytes = s.bytes ∧
        ((s.pos < s.bytes.length ∧
            e.allowed_bytes = [AllowedElem.intVal (s.bytes.getD s.pos 0)]) ∨
         (s.bytes.length ≤ s.pos ∧ ∃ gd, s.gen_data = some gd ∧
            e.allowed_bytes =
              (validNextTokens gd.mask).map fun t =>
                AllowedElem.bytesVal [t]))) := by
  by_cases hpos : s.pos < s.bytes.length
  · have hg : s.bytes.getD s.pos 0 = s.bytes[s.pos] :=
      List.getD_eq_getElem s.bytes 0 hpos
    have hnle : ¬ s.bytes.length ≤ s.pos := Nat.not_le.mpr hpos
    by_cases hb : b = s.bytes.getD s.pos 0
    · constructor
      · simp [consumeBytesStep, hpos, hb, hg, hnle]
      · intro e he
        simp [consumeBytesStep, hpos, hb, hg] at he
    · have hbe : ¬ b = s.bytes[s.pos] := by
        rw [← hg]
        exact hb
      constructor
      · simp [consumeBytesStep, hpos, hbe, hg, hnle]
      · intro e he
        simp [consumeBytesStep, hpos, hbe] at he
        subst he
        simp [hpos, hg]
  · have hlen : s.bytes.length ≤ s.pos := Nat.le_of_not_lt hpos
    cases hgd : s.gen_data with
    | none =>
        constructor
        · simp [consumeBytesStep, hpos, hgd]
        · intro e he
          simp [consumeBytesStep, hpos, hgd] at he
    | some gd =>
        by_cases hmem : b ∈ validNextTokens gd.mask
        · constructor
          · cases hct : consumeToken b s.ll.state <;>
              simp [consumeBytesStep, hpos, hgd, hmem, hct, hlen]
          · intro e he
            cases hct : consumeToken b s.ll.state <;>
              simp [consumeBytesStep, hpos, hgd, hmem, hct] at he
        · constructor
          · simp [consumeBytesStep, hpos, hgd, hmem, hlen]
          · intro e he
            simp [consumeBytesStep, hpos, hgd, hmem] at he
            subst he
            simp [hlen, hgd, hmem]

/-- A committed-buffer mismatch configuration: buffer `[0x61]`, cursor 0. -/
def bufMismatchSt : ByteParserSt :=
  ByteParserSt.mk (LLParserSt.mk [] (ParserState.mk [] [] 0 false)) [97]
    (some (GenData.mk [] [] 0)) 0 [] []

/-- A frontier mismatch configuration: empty buffer, pending mask whose only
legal id is 1. -/
def frontierMismatchSt : ByteParserSt :=
  ByteParserSt.mk (LLParserSt.mk [] (ParserState.mk [] [] 0 false)) []
    (some (GenData.mk [] [0, 1] 0)) 0 [] []

/-- Witness for C6: the buffer-mismatch site raises with the offending byte
and the consumed buffer attached. -/
theorem consume_bytes_mismatch_spec_witness :
    (ParserException.mk 98 [AllowedElem.intVal 97] [97]).current_byte = 98 ∧
    (ParserException.mk 98 [AllowedElem.intVal 97] [97]).consumed_bytes =
      bufMismatchSt.bytes := by
  have h := (consume_bytes_mismatch_spec bufMismatchSt 98).2
    (ParserException.mk 98 [AllowedElem.intVal 97] [97]) (by decide)
  exact ⟨h.1, h.2.1⟩

/-- C10: the two `consume_bytes` failure sites populate `allowed_bytes` with
different element representations — a committed-buffer mismatch reports the
expected byte as a raw int, while a frontier mismatch reports the legal next
bytes as single-byte `bytes` values. -/
theorem allowed_bytes_rep_mismatch :
    consumeBytes decNone bufMismatchSt [98] =
      ConsumeResult.exn (ParserException.mk 98 [AllowedElem.intVal 97] [97]) ∧
    consumeBytes decNone frontierMismatchSt [2] =
      ConsumeResult.exn
        (ParserException.mk 2 [AllowedElem.bytesVal [1]] []) := by
  constructor <;> decide
/-! ### Generation-state tree from `src/guidance/models/_base/_model.py`

Python mutation is modelled with an explicit heap: a `World` stores every
live `State` object and every live `_active_blocks` dict, a node references
each by index, `deepcopy` allocates a fresh state cell, and in-place
mutation rewrites exactly one cell.  `Model.copy` deep-copies only `_state`
(`obj.__dict__.update(self.__dict__)` shares every other attribute by
reference), so one `_active_blocks` dict is shared across a whole lineage
and mutating it through one node is visible through all of them.  This
makes "does not mutate a previously returned node" a real statement about
the store rather than a vacuity of pure values. -/

/-- One capture entry of the model state, the dict
`{"value": v, "log_prob": lp}` built by `Model.set`. -/
structure CapEntry where
  value : String
  log_prob : Option Rat
deriving DecidableEq

/-- A `state.captures` slot: a scalar entry or a list of entries. -/
inductive CapSlot where
  | scalar (e : CapEntry)
  | list (es : List CapEntry)
deriving DecidableEq

/-- Modelled from the spec: the durable model state `self._state` — the
capture map and the rendered-content accumulator (spec §3, §4.3).  The
`State` class lives outside `src/`; `_model.py` reads its `captures` dict
and its rendered text, and `State.apply_chunk` is abstracted as an
arbitrary state transformer where it is applied. -/
structure StateV where
  captures : List (String × CapSlot)
  text : String
deriving DecidableEq

instance : Inhabited StateV := ⟨StateV.mk [] ""⟩

/-- Modelled from the spec: a `Block` (spec §3) — identity, optional
capture name, optional opener/closer grammar fragments.  The class lives
outside `src/`; `_model.py` reads `block.name`, `block.opener` and
`block.closer` and compares blocks by object identity, modelled by `id`.
Fragments are referenced by id; the external client expands a fragment into
the chunk sequence `chunksOf` supplies below (stateful `Function`
fragments, fatal in the source, are outside this fragment space). -/
structure Block where
  id : Nat
  name : Option String
  opener : Option Nat
  closer : Option Nat
deriving DecidableEq

/-- Python dict lookup at `Block` keys (`_active_blocks`). -/
def bdGet (m : List (Block × Nat)) (b : Block) : Option Nat :=
  match m with
  | [] => none
  | (b2, v) :: rest => if b2 = b then some v else bdGet rest b

/-- Python `d[b] = v` at `Block` keys. -/
def bdPut (m : List (Block × Nat)) (b : Block) (v : Nat) :
    List (Block × Nat) :=
  match m with
  | [] => [(b, v)]
  | (b2, v2) :: rest =>
      if b2 = b then (b, v) :: rest else (b2, v2) :: bdPut rest b v

/-- Python `d.pop(b)` at `Block` keys. -/
def bdDrop (m : List (Block × Nat)) (b : Block) : List (Block × Nat) :=
  match m with
  | [] => []
  | (b2, v2) :: rest =>
      if b2 = b then rest else (b2, v2) :: bdDrop rest b

/-- The heap: every live state object and every live `_active_blocks`
dict; Python object identity is an index into the respective store;
`nextId` models the `_gen_id` counter. -/
structure World where
  states : List StateV
  blockDicts : List (List (Block × Nat))
  nextId : Nat
deriving DecidableEq

/-- In-place mutation of one state cell. -/
def World.mutate (w : World) (i : Nat) (f : StateV → StateV) : World :=
  World.mk (w.states.set i (f (w.states.getD i default))) w.blockDicts
    w.nextId

/-- In-place mutation of one `_active_blocks` dict. -/
def World.mutateBlocks (w : World) (i : Nat)
    (f : List (Block × Nat) → List (Block × Nat)) : World :=
  World.mk w.states (w.blockDicts.set i (f (w.blockDicts.getD i [])))
    w.nextId

/-- The model-node object header, mirroring the fields `Model.copy`
rewrites or shares: the state reference (deep-copied on copy), identity,
parent identity, token count, echo flag, and the `_active_blocks`
reference, which `copy` shares rather than copies. -/
structure ModelObj where
  stateRef : Nat
  id : Nat
  parentId : Option Nat
  token_count : Nat
  echo : Bool
  activeBlocksRef : Nat
deriving DecidableEq

/-- `Model.copy` (lines 178-188): `obj.__dict__.update(self.__dict__)`
shares every attribute by reference — in particular the `_active_blocks`
dict, whose reference the new node keeps — then only `_state` is replaced
by a deep copy in a fresh heap cell, a fresh identity is taken, and the
predecessor is recorded as parent. -/
def modelCopy (w : World) (m : ModelObj) : World × ModelObj :=
  (World.mk (w.states ++ [w.states.getD m.stateRef default]) w.blockDicts
    (w.nextId + 1),
   ModelObj.mk w.states.length w.nextId (some m.id) m.token_count m.echo
     m.activeBlocksRef)

/-- The argument of `Model.set`: a `str` or a `list[str]`. -/
inductive SetVal where
  | scalar (s : String)
  | list (vs : List String)
deriving DecidableEq

/-- The capture slot `Model.set` stores for its argument. -/
def setSlot (v : SetVal) : CapSlot :=
  match v with
  | SetVal.scalar s => CapSlot.scalar (CapEntry.mk s none)
  | SetVal.list vs => CapSlot.list (vs.map fun s => CapEntry.mk s none)

/-- `Model.set` (lines 229-244): copy-on-write, then assign
`self._state.captures[key]` on the fresh copy only. -/
def modelSet (w : World) (m : ModelObj) (k : String) (v : SetVal) :
    World × ModelObj :=
  ((modelCopy w m).1.mutate (modelCopy w m).2.stateRef
    (fun st => StateV.mk (dictPut st.captures k (setSlot v)) st.text),
   (modelCopy w m).2)

/-- `Model.remove` (lines 246-256): copy-on-write, then pop the key on the
fresh copy; `none` models the `KeyError` on an absent key. -/
def modelRemove (w : World) (m : ModelObj) (k : String) :
    Option (World × ModelObj) :=
  match dictGet ((modelCopy w m).1.states.getD
      (modelCopy w m).2.stateRef default).captures k with
  | none => none
  | some _ =>
      some ((modelCopy w m).1.mutate (modelCopy w m).2.stateRef (fun st =>
        StateV.mk (dictDrop st.captures k) st.text), (modelCopy w m).2)

/-- `Model._apply_chunk` (lines 110-134) with the externally defined
`State.apply_chunk` abstracted as a transformer `f` and the token-count
increment (nonzero only for generated-text chunks) as `dtok`: copy-on-write,
then mutate only the copy. -/
def modelApplyChunk (w : World) (m : ModelObj) (f : StateV → StateV)
    (dtok : Nat) : World × ModelObj :=
  ((modelCopy w m).1.mutate (modelCopy w m).2.stateRef f,
   ModelObj.mk (modelCopy w m).2.stateRef (modelCopy w m).2.id
     (modelCopy w m).2.parentId ((modelCopy w m).2.token_count + dtok)
     (modelCopy w m).2.echo (modelCopy w m).2.activeBlocksRef)

/-- `Model.__getitem__` (lines 201-209): read a capture by name — scalars
yield the value, lists the list of values; `none` is the `KeyError`. -/
def modelGetItem (w : World) (m : ModelObj) (k : String) :
    Option (String ⊕ List String) :=
  match dictGet (w.states.getD m.stateRef default).captures k with
  | none => none
  | some (CapSlot.scalar e) => some (Sum.inl e.value)
  | some (CapSlot.list es) => some (Sum.inr (es.map fun e => e.value))

/-- `Model.__str__` (lines 190-191): the rendered text of the node state. -/
def modelStr (w : World) (m : ModelObj) : String :=
  (w.states.getD m.stateRef default).text

/-- The `_active_blocks` dict visible through a node. -/
def modelActiveBlocks (w : World) (m : ModelObj) : List (Block × Nat) :=
  w.blockDicts.getD m.activeBlocksRef []

/-- `Model._apply_node` (lines 96-99): run the external client on the node
and apply each produced chunk in order; the client's chunk stream for a
grammar fragment is a parameter of the model. -/
def applyNodeChunks (w : World) (m : ModelObj)
    (chunks : List ((StateV → StateV) × Nat)) : World × ModelObj :=
  chunks.foldl (fun p c => modelApplyChunk p.1 p.2 c.1 c.2) (w, m)

/-- The closing half of one `_apply_blocks` iteration (lines 140-151): a
locally active block that is no longer globally active is popped from the
shared `_active_blocks` dict — mutating it in place — and its closer, if
any, is applied to the current node. -/
def closeBlockPop (chunksOf : Nat → List ((StateV → StateV) × Nat))
    (globalActive : List Block) (q : World × ModelObj)
    (item : Block × Nat) : World × ModelObj :=
  if item.1 ∈ globalActive then q
  else
    match item.1.closer with
    | none =>
        (q.1.mutateBlocks q.2.activeBlocksRef fun d => bdDrop d item.1, q.2)
    | some fid =>
        applyNodeChunks
          (q.1.mutateBlocks q.2.activeBlocksRef fun d => bdDrop d item.1)
          q.2 (chunksOf fid)

/-- One iteration of the first `_apply_blocks` loop (lines 139-154): close
the block if needed, then refresh the capture of a named block from its
recorded start offset regardless of whether it was closed. -/
def closeBlockStep (chunksOf : Nat → List ((StateV → StateV) × Nat))
    (globalActive : List Block) (q : World × ModelObj)
    (item : Block × Nat) : World × ModelObj :=
  match item.1.name with
  | none => closeBlockPop chunksOf globalActive q item
  | some nm =>
      modelSet (closeBlockPop chunksOf globalActive q item).1
        (closeBlockPop chunksOf globalActive q item).2 nm
        (SetVal.scalar (strDrop
          (modelStr (closeBlockPop chunksOf globalActive q item).1
            (closeBlockPop chunksOf globalActive q item).2) item.2))

/-- One iteration of the second `_apply_blocks` loop (lines 155-168): a
globally active block not yet locally active gets the current rendered
length recorded as its start offset in the shared dict — mutating it in
place — and its opener, if any, applied. -/
def openBlockStep (chunksOf : Nat → List ((StateV → StateV) × Nat))
    (q : World × ModelObj) (b : Block) : World × ModelObj :=
  match bdGet (q.1.blockDicts.getD q.2.activeBlocksRef []) b with
  | some _ => q
  | none =>
      match b.opener with
      | none =>
          (q.1.mutateBlocks q.2.activeBlocksRef
            (fun d => bdPut d b (modelStr q.1 q.2).data.length), q.2)
      | some fid =>
          applyNodeChunks
            (q.1.mutateBlocks q.2.activeBlocksRef
              (fun d => bdPut d b (modelStr q.1 q.2).data.length))
            q.2 (chunksOf fid)

/-- `Model._apply_blocks` (lines 136-169): copy, then reconcile the node's
locally active blocks against the globally active ones, iterating a
snapshot of the shared dict's items in reversed insertion order, and then
open the globally active blocks that are still missing. -/
def applyBlocks (chunksOf : Nat → List ((StateV → StateV) × Nat))
    (globalActive : List Block) (w : World) (m : ModelObj) :
    World × ModelObj :=
  globalActive.foldl (openBlockStep chunksOf)
    ((((modelCopy w m).1.blockDicts.getD
        (modelCopy w m).2.activeBlocksRef []).reverse).foldl
      (closeBlockStep chunksOf globalActive) (modelCopy w m))

/-- One iteration of `_update_open_block_captures` (lines 173-175). -/
def refreshCaptureStep (q : World × ModelObj) (item : Block × Nat) :
    World × ModelObj :=
  match item.1.name with
  | none => q
  | some nm =>
      modelSet q.1 q.2 nm
        (SetVal.scalar (strDrop (modelStr q.1 q.2) item.2))

/-- `Model._update_open_block_captures` (lines 171-176): copy, then refresh
the capture of every named locally active block. -/
def updateOpenBlockCaptures (w : World) (m : ModelObj) :
    World × ModelObj :=
  ((modelCopy w m).1.blockDicts.getD
    (modelCopy w m).2.activeBlocksRef []).foldl refreshCaptureStep
    (modelCopy w m)

theorem getD_append_left {α : Type} [Inhabited α] (l l2 : List α) (i : Nat)
    (h : i < l.length) : (l ++ l2).getD i default = l.getD i default := by
  induction l generalizing i with
  | nil => simp at h
  | cons a t ih =>
      cases i with
      | zero => simp
      | succ j =>
          simp only [List.cons_append, List.getD_cons_succ]
          exact ih j (by simpa using h)

theorem getD_set_ne {α : Type} [Inhabited α] (l : List α) (i j : Nat) (a : α)
    (h : j ≠ i) : (l.set j a).getD i default = l.getD i default := by
  induction l generalizing i j with
  | nil => simp
  | cons b t ih =>
      cases j with
      | zero =>
          cases i with
          | zero => exact absurd rfl h
          | succ i2 => simp
      | succ j2 =>
          cases i with
          | zero => simp
          | succ i2 =>
              simp only [List.set_cons_succ, List.getD_cons_succ]
              exact ih i2 j2 (fun hne => h (congrArg Nat.succ hne))

theorem set_append_length {α : Type} (l : List α) (x a : α) :
    (l ++ [x]).set l.length a = l ++ [a] := by
  induction l with
  | nil => simp
  | cons b t ih => simp [ih]

theorem getD_append_length {α : Type} [Inhabited α] (l : List α) (a : α) :
    (l ++ [a]).getD l.length default = a := by
  induction l with
  | nil => simp
  | cons b t ih => simp [ih]

theorem cow_states_length (w : World) (x : StateV)
    (bd : List (List (Block × Nat))) (n : Nat) (f : StateV → StateV) :
    ((World.mk (w.states ++ [x]) bd n).mutate
      w.states.length f).states.length = w.states.length + 1 := by
  unfold World.mutate
  simp

/-- Reads of a pre-existing state cell are untouched by a copy-on-write
step that appends one cell and mutates only that fresh cell. -/
theorem cow_preserves_old (w : World) (x : StateV)
    (bd : List (List (Block × Nat))) (n : Nat) (f : StateV → StateV)
    (i : Nat) (h : i < w.states.length) :
    ((World.mk (w.states ++ [x]) bd n).mutate w.states.length f).states.getD
        i default = w.states.getD i default := by
  unfold World.mutate
  rw [getD_set_ne _ _ _ _ (Nat.ne_of_lt h).symm]
  exact getD_append_left _ _ _ h

/-- The fresh cell allocated by a copy-on-write step reads back as the
mutated deep copy. -/
theorem cow_fresh_read (w : World) (x : StateV)
    (bd : List (List (Block × Nat))) (n : Nat) (f : StateV → StateV) :
    ((World.mk (w.states ++ [x]) bd n).mutate w.states.length f).states.getD
      w.states.length default = f x := by
  unfold World.mutate
  rw [show (World.mk (w.states ++ [x]) bd n).states = w.states ++ [x]
    from rfl, getD_append_length, set_append_length]
  exact getD_append_length _ _

theorem cow_old_getitem (w : World) (m2 : ModelObj) (x : StateV)
    (bd : List (List (Block × Nat))) (n : Nat) (f : StateV → StateV)
    (hm : m2.stateRef < w.states.length) (k2 : String) :
    modelGetItem ((World.mk (w.states ++ [x]) bd n).mutate
      w.states.length f) m2 k2 = modelGetItem w m2 k2 := by
  unfold modelGetItem
  rw [cow_preserves_old w x bd n f m2.stateRef hm]

theorem cow_old_str (w : World) (m2 : ModelObj) (x : StateV)
    (bd : List (List (Block × Nat))) (n : Nat) (f : StateV → StateV)
    (hm : m2.stateRef < w.states.length) :
    modelStr ((World.mk (w.states ++ [x]) bd n).mutate w.states.length f)
      m2 = modelStr w m2 := by
  unfold modelStr
  rw [cow_preserves_old w x bd n f m2.stateRef hm]

/-- State reads are preserved for every node whose state reference predates
an operation: the state heap only grows, and pre-existing cells are never
rewritten — this quantifies over all previously returned nodes, not just
the operated-on one. -/
def ReadsPreserved (w w2 : World) : Prop :=
  w.states.length ≤ w2.states.length ∧
  ∀ m2 : ModelObj, m2.stateRef < w.states.length →
    (∀ k, modelGetItem w2 m2 k = modelGetItem w m2 k) ∧
    modelStr w2 m2 = modelStr w m2

theorem readsPreserved_refl (w : World) : ReadsPreserved w w :=
  ⟨Nat.le_refl _, fun _ _ => ⟨fun _ => rfl, rfl⟩⟩

theorem readsPreserved_trans {w1 w2 w3 : World} (h1 : ReadsPreserved w1 w2)
    (h2 : ReadsPreserved w2 w3) : ReadsPreserved w1 w3 := by
  refine ⟨Nat.le_trans h1.1 h2.1, fun m2 hm => ?_⟩
  obtain ⟨ha, hb⟩ := h1.2 m2 hm
  obtain ⟨hc, hd⟩ := h2.2 m2 (Nat.lt_of_lt_of_le hm h1.1)
  exact ⟨fun k => (hc k).trans (ha k), hd.trans hb⟩

/-- Any copy-on-write step preserves the reads of every prior node. -/
theorem readsPreserved_cow (w : World) (x : StateV)
    (bd : List (List (Block × Nat))) (n : Nat) (f : StateV → StateV) :
    ReadsPreserved w ((World.mk (w.states ++ [x]) bd n).mutate
      w.states.length f) := by
  constructor
  · rw [cow_states_length]
    exact Nat.le_succ _
  · intro m2 hm
    exact ⟨fun k2 => cow_old_getitem w m2 x bd n f hm k2,
      cow_old_str w m2 x bd n f hm⟩

theorem readsPreserved_modelSet (w : World) (m : ModelObj) (k : String)
    (v : SetVal) : ReadsPreserved w (modelSet w m k v).1 := by
  show ReadsPreserved w ((World.mk
    (w.states ++ [w.states.getD m.stateRef default]) w.blockDicts
    (w.nextId + 1)).mutate w.states.length
    (fun st => StateV.mk (dictPut st.captures k (setSlot v)) st.text))
  exact readsPreserved_cow _ _ _ _ _

theorem readsPreserved_applyChunk (w : World) (m : ModelObj)
    (f : StateV → StateV) (dtok : Nat) :
    ReadsPreserved w (modelApplyChunk w m f dtok).1 := by
  show ReadsPreserved w ((World.mk
    (w.states ++ [w.states.getD m.stateRef default]) w.blockDicts
    (w.nextId + 1)).mutate w.states.length f)
  exact readsPreserved_cow _ _ _ _ _

theorem readsPreserved_modelCopy (w : World) (m : ModelObj) :
    ReadsPreserved w (modelCopy w m).1 := by
  constructor
  · show w.states.length ≤
      (w.states ++ [w.states.getD m.stateRef default]).length
    simp only [List.length_append, List.length_cons, List.length_nil]
    omega
  · intro m2 hm
    constructor
    · intro k2
      show modelGetItem (World.mk
        (w.states ++ [w.states.getD m.stateRef default]) w.blockDicts
        (w.nextId + 1)) m2 k2 = modelGetItem w m2 k2
      unfold modelGetItem
      rw [show (World.mk (w.states ++ [w.states.getD m.stateRef default])
        w.blockDicts (w.nextId + 1)).states =
        w.states ++ [w.states.getD m.stateRef default] from rfl,
        getD_append_left _ _ _ hm]
    · show modelStr (World.mk
        (w.states ++ [w.states.getD m.stateRef default]) w.blockDicts
        (w.nextId + 1)) m2 = modelStr w m2
      unfold modelStr
      rw [show (World.mk (w.states ++ [w.states.getD m.stateRef default])
        w.blockDicts (w.nextId + 1)).states =
        w.states ++ [w.states.getD m.stateRef default] from rfl,
        getD_append_left _ _ _ hm]

theorem readsPreserved_mutateBlocks (w : World) (i : Nat)
    (f : List (Block × Nat) → List (Block × Nat)) :
    ReadsPreserved w (w.mutateBlocks i f) :=
  ⟨Nat.le_refl _, fun _ _ => ⟨fun _ => rfl, rfl⟩⟩

theorem readsPreserved_applyNodeChunks
    (chunks : List ((StateV → StateV) × Nat)) :
    ∀ (w : World) (m : ModelObj),
      ReadsPreserved w (applyNodeChunks w m chunks).1 := by
  induction chunks with
  | nil => intro w m; exact readsPreserved_refl w
  | cons c rest ih =>
      intro w m
      exact readsPreserved_trans (readsPreserved_applyChunk w m c.1 c.2)
        (ih (modelApplyChunk w m c.1 c.2).1 (modelApplyChunk w m c.1 c.2).2)

theorem readsPreserved_foldl {β : Type}
    (f : (World × ModelObj) → β → (World × ModelObj))
    (hf : ∀ q item, ReadsPreserved q.1 (f q item).1) (l : List β) :
    ∀ q : World × ModelObj, ReadsPreserved q.1 ((l.foldl f q).1) := by
  induction l with
  | nil => intro q; exact readsPreserved_refl _
  | cons item rest ih =>
      intro q
      exact readsPreserved_trans (hf q item) (ih (f q item))

theorem readsPreserved_closeBlockPop
    (chunksOf : Nat → List ((StateV → StateV) × Nat))
    (globalActive : List Block) (q : World × ModelObj)
    (item : Block × Nat) :
    ReadsPreserved q.1 (closeBlockPop chunksOf globalActive q item).1 := by
  unfold closeBlockPop
  by_cases hmem : item.1 ∈ globalActive
  · rw [if_pos hmem]
    exact readsPreserved_refl _
  · rw [if_neg hmem]
    cases hc : item.1.closer with
    | none =>
        simp only [hc]
        exact readsPreserved_mutateBlocks _ _ _
    | some fid =>
        simp only [hc]
        exact readsPreserved_trans (readsPreserved_mutateBlocks _ _ _)
          (readsPreserved_applyNodeChunks (chunksOf fid) _ _)

theorem readsPreserved_closeBlockStep
    (chunksOf : Nat → List ((StateV → StateV) × Nat))
    (globalActive : List Block) (q : World × ModelObj)
    (item : Block × Nat) :
    ReadsPreserved q.1 (closeBlockStep chunksOf globalActive q item).1 := by
  unfold closeBlockStep
  cases hname : item.1.name with
  | none =>
      simp only [hname]
      exact readsPreserved_closeBlockPop chunksOf globalActive q item
  | some nm =>
      simp only [hname]
      exact readsPreserved_trans
        (readsPreserved_closeBlockPop chunksOf globalActive q item)
        (readsPreserved_modelSet _ _ _ _)

theorem readsPreserved_openBlockStep
    (chunksOf : Nat → List ((StateV → StateV) × Nat))
    (q : World × ModelObj) (b : Block) :
    ReadsPreserved q.1 (openBlockStep chunksOf q b).1 := by
  unfold openBlockStep
  cases hg : bdGet (q.1.blockDicts.getD q.2.activeBlocksRef []) b with
  | some v =>
      simp only [hg]
      exact readsPreserved_refl _
  | none =>
      simp only [hg]
      cases ho : b.opener with
      | none =>
          simp only [ho]
          exact readsPreserved_mutateBlocks _ _ _
      | some fid =>
          simp only [ho]
          exact readsPreserved_trans (readsPreserved_mutateBlocks _ _ _)
            (readsPreserved_applyNodeChunks (chunksOf fid) _ _)

theorem readsPreserved_applyBlocks
    (chunksOf : Nat → List ((StateV → StateV) × Nat))
    (globalActive : List Block) (w : World) (m : ModelObj) :
    ReadsPreserved w (applyBlocks chunksOf globalActive w m).1 := by
  unfold applyBlocks
  exact readsPreserved_trans
    (readsPreserved_trans (readsPreserved_modelCopy w m)
      (readsPreserved_foldl (closeBlockStep chunksOf globalActive)
        (fun q item =>
          readsPreserved_closeBlockStep chunksOf globalActive q item)
        (((modelCopy w m).1.blockDicts.getD
          (modelCopy w m).2.activeBlocksRef []).reverse) (modelCopy w m)))
    (readsPreserved_foldl (openBlockStep chunksOf)
      (fun q b => readsPreserved_openBlockStep chunksOf q b) globalActive _)

theorem readsPreserved_refreshCaptureStep (q : World × ModelObj)
    (item : Block × Nat) :
    ReadsPreserved q.1 (refreshCaptureStep q item).1 := by
  unfold refreshCaptureStep
  cases hname : item.1.name with
  | none =>
      simp only [hname]
      exact readsPreserved_refl _
  | some nm =>
      simp only [hname]
      exact readsPreserved_modelSet _ _ _ _

theorem readsPreserved_updateOpenBlockCaptures (w : World) (m : ModelObj) :
    ReadsPreserved w (updateOpenBlockCaptures w m).1 := by
  unfold updateOpenBlockCaptures
  exact readsPreserved_trans (readsPreserved_modelCopy w m)
    (readsPreserved_foldl refreshCaptureStep
      (fun q item => readsPreserved_refreshCaptureStep q item)
      ((modelCopy w m).1.blockDicts.getD
        (modelCopy w m).2.activeBlocksRef []) (modelCopy w m))

/-- A fragment-free, nameless block shared between two lineage nodes. -/
def sharedBlock : Block := Block.mk 0 none none none

/-- A two-node lineage: `blockNodeA` is the original, `blockNodeB` a
previously returned copy with its own deep-copied state but — exactly as
`Model.copy` leaves it — the same `_active_blocks` reference. -/
def blockWorld : World :=
  World.mk [StateV.mk [] "", StateV.mk [] ""] [[(sharedBlock, 0)]] 2

/-- The original node of the lineage. -/
def blockNodeA : ModelObj := ModelObj.mk 0 0 none 0 true 0

/-- A previously returned copy of `blockNodeA` (fresh state cell 1, shared
`_active_blocks` dict 0). -/
def blockNodeB : ModelObj := ModelObj.mk 1 1 (some 0) 0 true 0

/-- C7 counterexample: block reconciliation on one node mutates a
previously returned node.  With the block no longer globally active,
`_apply_blocks` on `blockNodeB` pops it from the `_active_blocks` dict that
`copy` shares by reference, so the dict observed through the earlier node
`blockNodeA` changes from one entry to empty — the operation did not leave
every previously returned node's observable state unchanged. -/
theorem block_reconciliation_mutates_cex :
    modelActiveBlocks blockWorld blockNodeA = [(sharedBlock, 0)] ∧
    modelActiveBlocks
      (applyBlocks (fun _ => []) [] blockWorld blockNodeB).1 blockNodeA =
      [] := by
  constructor <;> decide

/-- C7 amended: per-node state is copy-on-write and isolated — `set`,
`remove`, chunk application, block reconciliation and open-block capture
refresh all leave the captures and rendered text readable from every
previously returned node unchanged (the state heap only grows and old cells
are never rewritten), and `set(key, v)` yields a node on which reading the
key gives `v`.  Only the `_state`-carried surface is isolated: the shared
`_active_blocks` dict is outside this guarantee, as the counterexample
shows. -/
theorem model_tree_ops_spec (w : World) (m : ModelObj) (k : String)
    (v : SetVal) :
    (modelGetItem (modelSet w m k v).1 (modelSet w m k v).2 k =
      some (match v with
        | SetVal.scalar s => Sum.inl s
        | SetVal.list vs => Sum.inr vs))
    ∧ ReadsPreserved w (modelSet w m k v).1
    ∧ (∀ f dtok, ReadsPreserved w (modelApplyChunk w m f dtok).1)
    ∧ (∀ w2 m2, modelRemove w m k = some (w2, m2) → ReadsPreserved w w2)
    ∧ (∀ chunksOf globalActive,
        ReadsPreserved w (applyBlocks chunksOf globalActive w m).1)
    ∧ ReadsPreserved w (updateOpenBlockCaptures w m).1 := by
  refine ⟨?_, readsPreserved_modelSet w m k v,
    fun f dtok => readsPreserved_applyChunk w m f dtok, ?_,
    fun chunksOf globalActive =>
      readsPreserved_applyBlocks chunksOf globalActive w m,
    readsPreserved_updateOpenBlockCaptures w m⟩
  · show modelGetItem
      ((World.mk (w.states ++ [w.states.getD m.stateRef default])
        w.blockDicts (w.nextId + 1)).mutate w.states.length
        (fun st => StateV.mk (dictPut st.captures k (setSlot v)) st.text))
      (ModelObj.mk w.states.length w.nextId (some m.id) m.token_count
        m.echo m.activeBlocksRef) k = _
    unfold modelGetItem
    rw [show (ModelObj.mk w.states.length w.nextId (some m.id)
      m.token_count m.echo m.activeBlocksRef).stateRef = w.states.length
      from rfl]
    rw [cow_fresh_read]
    rw [show (StateV.mk (dictPut (w.states.getD m.stateRef default).captures
      k (setSlot v)) (w.states.getD m.stateRef default).text).captures =
      dictPut (w.states.getD m.stateRef default).captures k (setSlot v)
      from rfl]
    rw [dictGet_dictPut_self]
    cases v <;> simp [setSlot, Function.comp_def]
  · intro w2 m2 h
    unfold modelRemove at h
    split at h
    · exact absurd h (by simp)
    · injection h with h2
      rw [Prod.mk.injEq] at h2
      obtain ⟨h3, h4⟩ := h2
      rw [← h3]
      show ReadsPreserved w ((World.mk
        (w.states ++ [w.states.getD m.stateRef default]) w.blockDicts
        (w.nextId + 1)).mutate w.states.length
        (fun st => StateV.mk (dictDrop st.captures k) st.text))
      exact readsPreserved_cow _ _ _ _ _

/-- Witness for the amended C7 at a one-node world: setting `a` to `new` is
visible on the returned node while the original still reads its prior
value. -/
theorem model_tree_ops_spec_witness :
    modelGetItem (modelSet (World.mk [StateV.mk
        [("a", CapSlot.scalar (CapEntry.mk "old" none))] "t"] [[]] 1)
        (ModelObj.mk 0 0 none 0 true 0) "a" (SetVal.scalar "new")).1
      (modelSet (World.mk [StateV.mk
        [("a", CapSlot.scalar (CapEntry.mk "old" none))] "t"] [[]] 1)
        (ModelObj.mk 0 0 none 0 true 0) "a" (SetVal.scalar "new")).2 "a" =
      some (Sum.inl "new") ∧
    modelGetItem (modelSet (World.mk [StateV.mk
        [("a", CapSlot.scalar (CapEntry.mk "old" none))] "t"] [[]] 1)
        (ModelObj.mk 0 0 none 0 true 0) "a" (SetVal.scalar "new")).1
      (ModelObj.mk 0 0 none 0 true 0) "a" =
      modelGetItem (World.mk [StateV.mk
        [("a", CapSlot.scalar (CapEntry.mk "old" none))] "t"] [[]] 1)
        (ModelObj.mk 0 0 none 0 true 0) "a" := by
  have h := model_tree_ops_spec (World.mk [StateV.mk
      [("a", CapSlot.scalar (CapEntry.mk "old" none))] "t"] [[]] 1)
    (ModelObj.mk 0 0 none 0 true 0) "a" (SetVal.scalar "new")
  obtain ⟨hlen, hp⟩ := h.2.1
  exact ⟨h.1, (hp (ModelObj.mk 0 0 none 0 true 0) (by decide)).1 "a"⟩

end Guidance
